import Mathlib

/-!
Shallow embedding of the downloader subsystem of EML-Lib
(`src/lib/utils/downloader.ts`).

Modelling conventions:
* JS numbers are idealized: byte counters are `Int` (they are subtracted
  from on the error path), sizes are `Nat`, `speed`/`eta` are `ℚ`, and
  `Date.now()` timestamps are `Int` milliseconds.
* Filesystem and network behaviour are oracles supplied as parameters:
  `FsState` answers `fs.access` / `utils.getFileHash`, and a behaviour
  function `File → Nat → AttemptResult` gives the outcome of each
  transfer attempt (the chunks the response body delivers and how the
  attempt ends).
* The worker pool (`CONCURRENCY_LIMIT = 5` consumers draining one shared
  queue on the single JS thread) is modelled by a sequential drain of the
  queue; each per-chunk handler is atomic in JS, and the statements proved
  below only concern per-event contents and membership, which do not
  depend on the interleaving of workers.
* Emitted events and other observable actions (network requests, retry
  sleeps) are collected in a trace.
-/

namespace EML

/-- Embeds `File.type` from `src/types/file` as used by the downloader. -/
inductive FileType
  | FILE
  | FOLDER
deriving DecidableEq, Repr

/-- The file descriptor consumed by the downloader (`File` in the source). -/
structure File where
  path : String
  name : String
  type : FileType
  url : Option String
  size : Option Nat
  sha1 : Option String
  executable : Bool
deriving DecidableEq, Repr

/-- One entry of `this.history`: `{ size: chunk.length, time: now }`. -/
structure Sample where
  size : Nat
  time : Int
deriving DecidableEq, Repr

/-- Embeds `ErrorType` from `src/types/errors` (the members the downloader uses). -/
inductive ErrorType
  | DOWNLOAD_ERROR
  | FETCH_ERROR
deriving DecidableEq, Repr

/-- Embeds `EMLLibError` from `src/types/errors`: a typed error with a message. -/
structure EMLLibError where
  errType : ErrorType
  message : String
deriving DecidableEq, Repr

/-- Events emitted by the downloader (`download_progress`, `download_error`,
`download_end`), with the fields the source attaches to each. -/
inductive Event
  | progress (totalAmount : Nat) (totalSize : Nat) (downloadedAmount : Nat)
      (downloadedSize : Int) (speed : ℚ) (eta : Int) (ftype : FileType)
  | fileError (filename : String) (ftype : FileType) (message : String)
  | ended (downloadedAmount : Nat) (downloadedSize : Int)
deriving DecidableEq, Repr

/-- Observable actions of a run: emitted events, the `fetch` issued at the
start of each `downloadFile` attempt, and the retry sleeps
(`setTimeout(r, 1000 * (attempt + 1))`). -/
inductive Action
  | emit (e : Event)
  | fetchStart (f : File)
  | wait (ms : Nat)
deriving DecidableEq, Repr

/-- The mutable fields of the `Downloader` instance: `this.size`,
`this.amount`, `this.downloaded.{amount,size}`, `this.error`, `this.speed`,
`this.eta`, `this.history`. -/
structure DState where
  size : Nat
  amount : Nat
  downloadedAmount : Nat
  downloadedSize : Int
  error : Bool
  speed : ℚ
  eta : ℚ
  history : List Sample
deriving DecidableEq, Repr

/-- Outcome of one transfer attempt for one file, as seen by
`downloadFile`: the HTTP response was not ok / had no body
(`fetchError`, carrying `res.statusText`); the body streamed `chunks` and
the stream finished cleanly (`streamOk`); the body or the write stream
errored after delivering `chunks` (`streamError`); or the stream finished
but `chmodJavaFiles` threw (`chmodError`). -/
inductive AttemptResult
  | fetchError (statusText : String)
  | streamOk (chunks : List Sample)
  | streamError (chunks : List Sample) (message : String)
  | chmodError (chunks : List Sample) (message : String)
deriving DecidableEq, Repr

/-- Filesystem oracle: whether `fs.access` succeeds at a path, and what
`utils.getFileHash` returns there (`none` means hashing throws). -/
structure FsState where
  pathExists : String → Bool
  fileHash : String → Option String

/-- Embeds `path_.join(this.dest, file.path, file.name)` (path normalization is
irrelevant to the claims and is abstracted as concatenation). -/
def filePathOf (dest : String) (f : File) : String :=
  dest ++ "/" ++ f.path ++ "/" ++ f.name

/-- JS truthiness of an optional string: `undefined` and `''` are falsy. -/
def strTruthy : Option String → Bool
  | none => false
  | some s => !(s == "")

/-- The per-entry body of `getFilesToDownload`: after the FOLDER branch
(which `mkdir`s the path if absent, so the subsequent `fs.access` in the
`try` block succeeds), compute the `needsDownload` flag.  A thrown
`fs.access` lands in the `catch` and sets the flag; a thrown
`utils.getFileHash` (inside the `try`) does too. -/
def entryNeedsDownload (fs : FsState) (dest : String) (f : File) : Bool :=
  let filePath := filePathOf dest f
  let existsNow := if f.type == FileType.FOLDER then true else fs.pathExists filePath
  if existsNow then
    match f.sha1 with
    | some h =>
      if h == "" then false
      else
        match fs.fileHash filePath with
        | some localHash => h != localHash
        | none => true
    | none => false
  else
    true

/-- Embeds `getFilesToDownload`: the entries whose `needsDownload` flag is set and
whose `url` is truthy.  (The source pushes concurrently, so the order of
the returned list is nondeterministic in JS; the model fixes source order —
all claims about this set are membership claims.) -/
def getFilesToDownload (fs : FsState) (dest : String) (files : List File) : List File :=
  files.filter (fun f => entryNeedsDownload fs dest f && strTruthy f.url)

/-- Line 43: `!skipCheck ? await this.getFilesToDownload(files) : files` —
the list that becomes the worker-pool queue. -/
def downloadQueue (fs : FsState) (dest : String) (files : List File) (skipCheck : Bool) :
    List File :=
  if skipCheck then files else getFilesToDownload fs dest files

/-- The front-pruning loop
`while (history.length > 0 && now - history[0].time > 6000) history.shift()`. -/
def pruneHistory (now : Int) : List Sample → List Sample
  | [] => []
  | s :: rest => if 6000 < now - s.time then pruneHistory now rest else s :: rest

/-- The `res.body.on('data', …)` handler for one chunk: push the sample,
prune the window, count the bytes, recompute speed and eta, and emit a
`download_progress` event. -/
def onChunk (st : DState) (ftype : FileType) (c : Sample) : DState × Action :=
  let hist := pruneHistory c.time (st.history ++ [c])
  let newSize : Int := st.downloadedSize + (c.size : Int)
  let totalSampled : Nat := (hist.map Sample.size).sum
  let elapsed : ℚ := (((c.time - (hist.headD c).time : Int) : ℚ)) / 1000
  let speed : ℚ := if 0 < elapsed then (totalSampled : ℚ) / elapsed else 0
  let eta : ℚ := if 0 < speed then ((st.size : ℚ) - (newSize : ℚ)) / speed else 0
  ({ st with downloadedSize := newSize, speed := speed, eta := eta, history := hist },
    Action.emit (Event.progress st.amount st.size st.downloadedAmount newSize speed
      (Rat.floor eta) ftype))

/-- Fold of the chunk handler over the chunks one attempt delivers. -/
def processChunks (st : DState) (ftype : FileType) : List Sample → DState × List Action
  | [] => (st, [])
  | c :: rest =>
    let step := onChunk st ftype c
    let tail := processChunks step.1 ftype rest
    (tail.1, step.2 :: tail.2)

/-- Total number of bytes the body delivered during one attempt
(`bytesDownloadedThisAttempt` at the end of the attempt). -/
def attemptChunkSum : AttemptResult → Nat
  | .fetchError _ => 0
  | .streamOk chunks => (chunks.map Sample.size).sum
  | .streamError chunks _ => (chunks.map Sample.size).sum
  | .chmodError chunks _ => (chunks.map Sample.size).sum

/-- Embeds `downloadFile`: issue the fetch; on a bad response throw an
`EMLLibError(FETCH_ERROR, …)` message; otherwise stream the chunks through
the data handler.  On a body/stream error, subtract
`bytesDownloadedThisAttempt` from `this.downloaded.size` and reject; on a
clean finish reject only if `chmodJavaFiles` throws.  Returns the new
state, the trace, and `some message` when the promise rejects. -/
def downloadFile (st : DState) (f : File) (res : AttemptResult) :
    DState × List Action × Option String :=
  match res with
  | .fetchError statusText =>
    (st, [Action.fetchStart f],
      some ("Error while fetching " ++ f.name ++ ": " ++ statusText))
  | .streamOk chunks =>
    let run := processChunks st f.type chunks
    (run.1, Action.fetchStart f :: run.2, none)
  | .streamError chunks message =>
    let run := processChunks st f.type chunks
    ({ run.1 with
        downloadedSize := run.1.downloadedSize - ((chunks.map Sample.size).sum : Int) },
      Action.fetchStart f :: run.2, some message)
  | .chmodError chunks message =>
    let run := processChunks st f.type chunks
    (run.1, Action.fetchStart f :: run.2, some message)

/-- Embeds `downloadFileWithRetry`: on success increment `downloaded.amount`; on
failure, if `attempt < 5`, sleep `1000 * (attempt + 1)` ms and retry with
`attempt + 1`; otherwise emit a `download_error` event and throw
`EMLLibError(DOWNLOAD_ERROR, …)`. -/
def downloadFileWithRetry (st : DState) (f : File) (beh : Nat → AttemptResult)
    (attempt : Nat) : DState × List Action × Option EMLLibError :=
  let run := downloadFile st f (beh attempt)
  match run.2.2 with
  | none =>
    ({ run.1 with downloadedAmount := run.1.downloadedAmount + 1 }, run.2.1, none)
  | some message =>
    if _h : attempt < 5 then
      let next := downloadFileWithRetry run.1 f beh (attempt + 1)
      (next.1, run.2.1 ++ Action.wait (1000 * (attempt + 1)) :: next.2.1, next.2.2)
    else
      (run.1, run.2.1 ++ [Action.emit (Event.fileError f.name f.type message)],
        some { errType := ErrorType.DOWNLOAD_ERROR,
               message := "Failed to download " ++ f.name ++ " after 5 attempts" })
termination_by 5 - attempt
decreasing_by omega

/-- Sequential drain of the shared queue by the worker pool: each file goes
through `downloadFileWithRetry` starting at attempt 0; a fatal error aborts
the wait (`Promise.all` rejects) and no further event is appended. -/
def runQueue (st : DState) (beh : File → Nat → AttemptResult) :
    List File → DState × List Action × Option EMLLibError
  | [] => (st, [], none)
  | f :: rest =>
    let run := downloadFileWithRetry st f (beh f) 0
    match run.2.2 with
    | some e => (run.1, run.2.1, some e)
    | none =>
      let tail := runQueue run.1 beh rest
      (tail.1, run.2.1 ++ tail.2.1, tail.2.2)

/-- Lines 45–51: reinitialize every mutable field of the instance from the
resolved queue at the start of a `download` call. -/
def initBatchState (prev : DState) (filesToDownload : List File) : DState :=
  { prev with
    size := (filesToDownload.map (fun f => f.size.getD 0)).sum
    amount := filesToDownload.length
    downloadedAmount := 0
    downloadedSize := 0
    error := false
    speed := 0
    eta := 0
    history := [] }

/-- Embeds `download(files, skipCheck)`: resolve the queue, reset the batch state,
short-circuit with a `download_end` event when the summed size is zero or
the queue is empty, otherwise drain the queue; emit `download_end` only
when no worker threw. -/
def download (prev : DState) (fs : FsState) (dest : String) (files : List File)
    (skipCheck : Bool) (beh : File → Nat → AttemptResult) :
    DState × List Action × Option EMLLibError :=
  let filesToDownload := downloadQueue fs dest files skipCheck
  let st0 := initBatchState prev filesToDownload
  if st0.size == 0 || filesToDownload.isEmpty then
    (st0, [Action.emit (Event.ended st0.downloadedAmount st0.downloadedSize)], none)
  else
    let run := runQueue st0 beh filesToDownload
    match run.2.2 with
    | none =>
      (run.1,
        run.2.1 ++ [Action.emit (Event.ended run.1.downloadedAmount run.1.downloadedSize)],
        none)
    | some e => (run.1, run.2.1, some e)

/-! ### Observation helpers over traces -/

/-- Bytes of an attempt that remain counted in `downloaded.size` after the
attempt returns: a stream error subtracts them back, a fetch error never
counted any, a clean stream (with or without a later chmod failure) keeps
them. -/
def retainedBytes : AttemptResult → Nat
  | .fetchError _ => 0
  | .streamOk chunks => (chunks.map Sample.size).sum
  | .streamError _ _ => 0
  | .chmodError chunks _ => (chunks.map Sample.size).sum

/-- Whether an attempt ends in the post-stream `chmodJavaFiles` failure. -/
def isChmodError : AttemptResult → Bool
  | .chmodError _ _ => true
  | _ => false

/-- Whether the `downloadFile` promise rejects for this attempt outcome. -/
def attemptRejects : AttemptResult → Bool
  | .streamOk _ => false
  | _ => true

def isProgressAction : Action → Bool
  | .emit (.progress _ _ _ _ _ _ _) => true
  | _ => false

def isEndedAction : Action → Bool
  | .emit (.ended _ _) => true
  | _ => false

def isFileErrorAction : Action → Bool
  | .emit (.fileError _ _ _) => true
  | _ => false

def isFetchStartAction : Action → Bool
  | .fetchStart _ => true
  | _ => false

/-- The files for which a network request was issued during a trace. -/
def fetchedFiles (tr : List Action) : List File :=
  tr.filterMap (fun a => match a with | .fetchStart g => some g | _ => none)

/-- The retry sleeps of a trace, in order. -/
def waitsOf (tr : List Action) : List Nat :=
  tr.filterMap (fun a => match a with | .wait ms => some ms | _ => none)

/-- The claimed per-event invariant: a progress event's downloaded counters
never exceed its totals (non-progress actions are unconstrained). -/
def progressBounded : Action → Bool
  | .emit (.progress _ ts _ ds _ _ _) => decide (ds ≤ (ts : Int))
  | .emit (.ended _ _) => true
  | .emit (.fileError _ _ _) => true
  | .fetchStart _ => true
  | .wait _ => true

/-- The companion invariant for the file counter. -/
def progressAmountBounded : Action → Bool
  | .emit (.progress ta _ da _ _ _ _) => decide (da ≤ ta)
  | .emit (.ended _ _) => true
  | .emit (.fileError _ _ _) => true
  | .fetchStart _ => true
  | .wait _ => true

/-! ### Field lemmas for the chunk handler -/

@[simp] theorem onChunk_size (st : DState) (t : FileType) (c : Sample) :
    (onChunk st t c).1.size = st.size := rfl

@[simp] theorem onChunk_amount (st : DState) (t : FileType) (c : Sample) :
    (onChunk st t c).1.amount = st.amount := rfl

@[simp] theorem onChunk_downloadedAmount (st : DState) (t : FileType) (c : Sample) :
    (onChunk st t c).1.downloadedAmount = st.downloadedAmount := rfl

@[simp] theorem onChunk_downloadedSize (st : DState) (t : FileType) (c : Sample) :
    (onChunk st t c).1.downloadedSize = st.downloadedSize + (c.size : Int) := rfl

theorem onChunk_action (st : DState) (t : FileType) (c : Sample) :
    ∃ sp et, (onChunk st t c).2 =
      Action.emit (Event.progress st.amount st.size st.downloadedAmount
        (st.downloadedSize + (c.size : Int)) sp et t) :=
  ⟨_, _, rfl⟩

/-! ### Lemmas for `processChunks` -/

theorem processChunks_size (st : DState) (t : FileType) (cs : List Sample) :
    (processChunks st t cs).1.size = st.size := by
  induction cs generalizing st with
  | nil => rfl
  | cons c rest ih => simpa [processChunks] using ih (onChunk st t c).1

theorem processChunks_amount (st : DState) (t : FileType) (cs : List Sample) :
    (processChunks st t cs).1.amount = st.amount := by
  induction cs generalizing st with
  | nil => rfl
  | cons c rest ih => simpa [processChunks] using ih (onChunk st t c).1

theorem processChunks_downloadedAmount (st : DState) (t : FileType) (cs : List Sample) :
    (processChunks st t cs).1.downloadedAmount = st.downloadedAmount := by
  induction cs generalizing st with
  | nil => rfl
  | cons c rest ih => simpa [processChunks] using ih (onChunk st t c).1

theorem processChunks_downloadedSize (st : DState) (t : FileType) (cs : List Sample) :
    (processChunks st t cs).1.downloadedSize =
      st.downloadedSize + ((cs.map Sample.size).sum : Int) := by
  induction cs generalizing st with
  | nil => simp [processChunks]
  | cons c rest ih =>
    simp only [processChunks, List.map_cons, List.sum_cons]
    rw [ih (onChunk st t c).1, onChunk_downloadedSize]
    push_cast
    ring

/-- Every action of a chunk run is a progress event carrying the batch
totals and file count current at the start of the attempt, with a byte
counter bounded by the bytes delivered so far. -/
theorem processChunks_actions (st : DState) (t : FileType) (cs : List Sample) :
    ∀ a ∈ (processChunks st t cs).2, ∃ ds sp et,
      a = Action.emit (Event.progress st.amount st.size st.downloadedAmount ds sp et t) ∧
        ds ≤ st.downloadedSize + ((cs.map Sample.size).sum : Int) := by
  induction cs generalizing st with
  | nil => intro a ha; simp [processChunks] at ha
  | cons c rest ih =>
    intro a ha
    simp only [processChunks, List.mem_cons] at ha
    rcases ha with ha | ha
    · obtain ⟨sp, et, hact⟩ := onChunk_action st t c
      refine ⟨st.downloadedSize + (c.size : Int), sp, et, by rw [ha, hact], ?_⟩
      simp only [List.map_cons, List.sum_cons, Nat.cast_add]
      omega
    · obtain ⟨ds, sp, et, hact, hds⟩ := ih (onChunk st t c).1 a ha
      rw [onChunk_amount, onChunk_size, onChunk_downloadedAmount] at hact
      rw [onChunk_downloadedSize] at hds
      refine ⟨ds, sp, et, hact, ?_⟩
      simp only [List.map_cons, List.sum_cons, Nat.cast_add] at hds ⊢
      omega

/-! ### Lemmas for `downloadFile` -/

theorem downloadFile_size (st : DState) (f : File) (r : AttemptResult) :
    (downloadFile st f r).1.size = st.size := by
  cases r <;> simp [downloadFile, processChunks_size]

theorem downloadFile_amount (st : DState) (f : File) (r : AttemptResult) :
    (downloadFile st f r).1.amount = st.amount := by
  cases r <;> simp [downloadFile, processChunks_amount]

theorem downloadFile_downloadedAmount (st : DState) (f : File) (r : AttemptResult) :
    (downloadFile st f r).1.downloadedAmount = st.downloadedAmount := by
  cases r <;> simp [downloadFile, processChunks_downloadedAmount]

theorem downloadFile_downloadedSize (st : DState) (f : File) (r : AttemptResult) :
    (downloadFile st f r).1.downloadedSize = st.downloadedSize + (retainedBytes r : Int) := by
  cases r <;> simp [downloadFile, retainedBytes, processChunks_downloadedSize]

theorem downloadFile_rejects (st : DState) (f : File) (r : AttemptResult) :
    (downloadFile st f r).2.2.isSome = attemptRejects r := by
  cases r <;> simp [downloadFile, attemptRejects]

/-- Every action of one attempt is either its network request or a progress
event carrying the counters current at the start of the attempt. -/
theorem downloadFile_actions (st : DState) (f : File) (r : AttemptResult) :
    ∀ a ∈ (downloadFile st f r).2.1,
      a = Action.fetchStart f ∨ ∃ ds sp et,
        a = Action.emit (Event.progress st.amount st.size st.downloadedAmount ds sp et f.type) ∧
          ds ≤ st.downloadedSize + (attemptChunkSum r : Int) := by
  intro a ha
  cases r with
  | fetchError statusText =>
    simp only [downloadFile, List.mem_singleton] at ha
    exact Or.inl ha
  | streamOk chunks =>
    simp only [downloadFile, List.mem_cons] at ha
    rcases ha with ha | ha
    · exact Or.inl ha
    · exact Or.inr (processChunks_actions st f.type chunks a ha)
  | streamError chunks message =>
    simp only [downloadFile, List.mem_cons] at ha
    rcases ha with ha | ha
    · exact Or.inl ha
    · exact Or.inr (processChunks_actions st f.type chunks a ha)
  | chmodError chunks message =>
    simp only [downloadFile, List.mem_cons] at ha
    rcases ha with ha | ha
    · exact Or.inl ha
    · exact Or.inr (processChunks_actions st f.type chunks a ha)

theorem retainedBytes_le_chunkSum (r : AttemptResult) :
    retainedBytes r ≤ attemptChunkSum r := by
  cases r <;> simp [retainedBytes, attemptChunkSum]

theorem retainedBytes_eq_zero (r : AttemptResult) (h1 : attemptRejects r = true)
    (h2 : isChmodError r = false) : retainedBytes r = 0 := by
  cases r <;> simp_all [retainedBytes, attemptRejects, isChmodError]

/-! ### Unfolding lemmas for `downloadFileWithRetry` -/

theorem downloadFileWithRetry_success (st : DState) (f : File) (beh : Nat → AttemptResult)
    (attempt : Nat) (hr : (downloadFile st f (beh attempt)).2.2 = none) :
    downloadFileWithRetry st f beh attempt =
      ({ (downloadFile st f (beh attempt)).1 with
          downloadedAmount := (downloadFile st f (beh attempt)).1.downloadedAmount + 1 },
        (downloadFile st f (beh attempt)).2.1, none) := by
  rw [downloadFileWithRetry]
  simp [hr]

theorem downloadFileWithRetry_retry (st : DState) (f : File) (beh : Nat → AttemptResult)
    (attempt : Nat) (msg : String) (hr : (downloadFile st f (beh attempt)).2.2 = some msg)
    (h5 : attempt < 5) :
    downloadFileWithRetry st f beh attempt =
      ((downloadFileWithRetry (downloadFile st f (beh attempt)).1 f beh (attempt + 1)).1,
        (downloadFile st f (beh attempt)).2.1 ++ Action.wait (1000 * (attempt + 1)) ::
          (downloadFileWithRetry (downloadFile st f (beh attempt)).1 f beh (attempt + 1)).2.1,
        (downloadFileWithRetry (downloadFile st f (beh attempt)).1 f beh (attempt + 1)).2.2) := by
  rw [downloadFileWithRetry]
  simp [hr, h5]

theorem downloadFileWithRetry_exhaust (st : DState) (f : File) (beh : Nat → AttemptResult)
    (attempt : Nat) (msg : String) (hr : (downloadFile st f (beh attempt)).2.2 = some msg)
    (h5 : ¬ attempt < 5) :
    downloadFileWithRetry st f beh attempt =
      ((downloadFile st f (beh attempt)).1,
        (downloadFile st f (beh attempt)).2.1 ++
          [Action.emit (Event.fileError f.name f.type msg)],
        some { errType := ErrorType.DOWNLOAD_ERROR,
               message := "Failed to download " ++ f.name ++ " after 5 attempts" }) := by
  rw [downloadFileWithRetry]
  simp [hr, h5]

/-! ### Shape of the retry trace (unconditional) -/

/-- Every action of a full retried transfer is the file's own network
request, a retry sleep, a `download_error` event for this very file, or a
progress event.  In particular no `download_end` event is ever emitted
below the scheduler, and no other file is fetched. -/
theorem downloadFileWithRetry_actions_aux :
    ∀ (fuel attempt : Nat), 5 - attempt ≤ fuel →
    ∀ (st : DState) (f : File) (beh : Nat → AttemptResult),
    ∀ a ∈ (downloadFileWithRetry st f beh attempt).2.1,
      a = Action.fetchStart f ∨ (∃ ms, a = Action.wait ms) ∨
      (∃ m, a = Action.emit (Event.fileError f.name f.type m)) ∨
      isProgressAction a = true := by
  intro fuel
  induction fuel with
  | zero =>
    intro attempt hfuel st f beh a ha
    have h5 : ¬ attempt < 5 := by omega
    rcases hr : (downloadFile st f (beh attempt)).2.2 with _ | msg
    · rw [downloadFileWithRetry_success st f beh attempt hr] at ha
      rcases downloadFile_actions st f (beh attempt) a ha with h | ⟨ds, sp, et, h, _⟩
      · exact Or.inl h
      · exact Or.inr (Or.inr (Or.inr (by rw [h]; rfl)))
    · rw [downloadFileWithRetry_exhaust st f beh attempt msg hr h5] at ha
      simp only [List.mem_append, List.mem_singleton] at ha
      rcases ha with ha | ha
      · rcases downloadFile_actions st f (beh attempt) a ha with h | ⟨ds, sp, et, h, _⟩
        · exact Or.inl h
        · exact Or.inr (Or.inr (Or.inr (by rw [h]; rfl)))
      · exact Or.inr (Or.inr (Or.inl ⟨msg, ha⟩))
  | succ k ih =>
    intro attempt hfuel st f beh a ha
    rcases hr : (downloadFile st f (beh attempt)).2.2 with _ | msg
    · rw [downloadFileWithRetry_success st f beh attempt hr] at ha
      rcases downloadFile_actions st f (beh attempt) a ha with h | ⟨ds, sp, et, h, _⟩
      · exact Or.inl h
      · exact Or.inr (Or.inr (Or.inr (by rw [h]; rfl)))
    · by_cases h5 : attempt < 5
      · rw [downloadFileWithRetry_retry st f beh attempt msg hr h5] at ha
        simp only [List.mem_append, List.mem_cons] at ha
        rcases ha with ha | ha | ha
        · rcases downloadFile_actions st f (beh attempt) a ha with h | ⟨ds, sp, et, h, _⟩
          · exact Or.inl h
          · exact Or.inr (Or.inr (Or.inr (by rw [h]; rfl)))
        · exact Or.inr (Or.inl ⟨1000 * (attempt + 1), ha⟩)
        · exact ih (attempt + 1) (by omega) _ f beh a ha
      · rw [downloadFileWithRetry_exhaust st f beh attempt msg hr h5] at ha
        simp only [List.mem_append, List.mem_singleton] at ha
        rcases ha with ha | ha
        · rcases downloadFile_actions st f (beh attempt) a ha with h | ⟨ds, sp, et, h, _⟩
          · exact Or.inl h
          · exact Or.inr (Or.inr (Or.inr (by rw [h]; rfl)))
        · exact Or.inr (Or.inr (Or.inl ⟨msg, ha⟩))

theorem downloadFileWithRetry_actions (st : DState) (f : File) (beh : Nat → AttemptResult) :
    ∀ a ∈ (downloadFileWithRetry st f beh 0).2.1,
      a = Action.fetchStart f ∨ (∃ ms, a = Action.wait ms) ∨
      (∃ m, a = Action.emit (Event.fileError f.name f.type m)) ∨
      isProgressAction a = true :=
  downloadFileWithRetry_actions_aux 5 0 (by omega) st f beh

/-! ### Counter bounds through one retried transfer -/

theorem downloadFile_progress_fields (st : DState) (f : File) (r : AttemptResult) (S : Nat)
    (hS : attemptChunkSum r ≤ S) :
    ∀ a ∈ (downloadFile st f r).2.1, ∀ ta ts da ds sp et ty,
      a = Action.emit (Event.progress ta ts da ds sp et ty) →
      ta = st.amount ∧ ts = st.size ∧ da = st.downloadedAmount ∧
        ds ≤ st.downloadedSize + (S : Int) := by
  intro a ha ta ts da ds sp et ty heq
  rcases downloadFile_actions st f r a ha with h | ⟨ds', sp', et', h, hds'⟩
  · rw [heq] at h
    simp at h
  · rw [heq] at h
    simp only [Action.emit.injEq, Event.progress.injEq] at h
    obtain ⟨hta, hts, hda, hds, _, _, _⟩ := h
    refine ⟨hta, hts, hda, ?_⟩
    have hcast : ((attemptChunkSum r : Int)) ≤ (S : Int) := by exact_mod_cast hS
    omega

/-- Invariant of one full retried transfer, assuming no attempt delivers
more than `S` bytes and no attempt fails in `chmodJavaFiles`: the totals
are untouched, the file counter grows by at most one (by exactly one on
success), the byte counter grows by at most `S`, and every progress event
emitted on the way carries the entry counters and a byte counter that
exceeds the starting one by at most `S`. -/
theorem downloadFileWithRetry_inv_aux (f : File) (beh : Nat → AttemptResult) (S : Nat)
    (Hsum : ∀ n, attemptChunkSum (beh n) ≤ S)
    (Hchmod : ∀ n, isChmodError (beh n) = false) :
    ∀ (fuel attempt : Nat), 5 - attempt ≤ fuel → ∀ st : DState,
      (downloadFileWithRetry st f beh attempt).1.size = st.size ∧
      (downloadFileWithRetry st f beh attempt).1.amount = st.amount ∧
      (downloadFileWithRetry st f beh attempt).1.downloadedAmount ≤ st.downloadedAmount + 1 ∧
      (downloadFileWithRetry st f beh attempt).1.downloadedSize ≤
        st.downloadedSize + (S : Int) ∧
      ((downloadFileWithRetry st f beh attempt).2.2 = none →
        (downloadFileWithRetry st f beh attempt).1.downloadedAmount =
          st.downloadedAmount + 1) ∧
      (∀ a ∈ (downloadFileWithRetry st f beh attempt).2.1, ∀ ta ts da ds sp et ty,
        a = Action.emit (Event.progress ta ts da ds sp et ty) →
        ta = st.amount ∧ ts = st.size ∧ da = st.downloadedAmount ∧
          ds ≤ st.downloadedSize + (S : Int)) := by
  intro fuel
  induction fuel with
  | zero =>
    intro attempt hfuel st
    have h5 : ¬ attempt < 5 := by omega
    rcases hr : (downloadFile st f (beh attempt)).2.2 with _ | msg
    · rw [downloadFileWithRetry_success st f beh attempt hr]
      have hret : (retainedBytes (beh attempt) : Int) ≤ (S : Int) := by
        exact_mod_cast le_trans (retainedBytes_le_chunkSum _) (Hsum attempt)
      refine ⟨downloadFile_size .., downloadFile_amount .., ?_, ?_, ?_, ?_⟩
      · simp [downloadFile_downloadedAmount]
      · simp only [downloadFile_downloadedSize]
        omega
      · intro _
        simp [downloadFile_downloadedAmount]
      · intro a ha
        exact downloadFile_progress_fields st f (beh attempt) S (Hsum attempt) a ha
    · rw [downloadFileWithRetry_exhaust st f beh attempt msg hr h5]
      have hz : retainedBytes (beh attempt) = 0 :=
        retainedBytes_eq_zero _ (by rw [← downloadFile_rejects st f (beh attempt), hr]; rfl)
          (Hchmod attempt)
      refine ⟨downloadFile_size .., downloadFile_amount .., ?_, ?_, ?_, ?_⟩
      · rw [downloadFile_downloadedAmount]
        omega
      · rw [downloadFile_downloadedSize, hz]
        simp
      · intro h
        simp at h
      · intro a ha
        simp only [List.mem_append, List.mem_singleton] at ha
        rcases ha with ha | ha
        · exact downloadFile_progress_fields st f (beh attempt) S (Hsum attempt) a ha
        · intro ta ts da ds sp et ty heq
          rw [heq] at ha
          simp at ha
  | succ k ih =>
    intro attempt hfuel st
    rcases hr : (downloadFile st f (beh attempt)).2.2 with _ | msg
    · rw [downloadFileWithRetry_success st f beh attempt hr]
      have hret : (retainedBytes (beh attempt) : Int) ≤ (S : Int) := by
        exact_mod_cast le_trans (retainedBytes_le_chunkSum _) (Hsum attempt)
      refine ⟨downloadFile_size .., downloadFile_amount .., ?_, ?_, ?_, ?_⟩
      · simp [downloadFile_downloadedAmount]
      · simp only [downloadFile_downloadedSize]
        omega
      · intro _
        simp [downloadFile_downloadedAmount]
      · intro a ha
        exact downloadFile_progress_fields st f (beh attempt) S (Hsum attempt) a ha
    · by_cases h5 : attempt < 5
      · rw [downloadFileWithRetry_retry st f beh attempt msg hr h5]
        have hz : retainedBytes (beh attempt) = 0 :=
          retainedBytes_eq_zero _ (by rw [← downloadFile_rejects st f (beh attempt), hr]; rfl)
            (Hchmod attempt)
        have hsz := downloadFile_size st f (beh attempt)
        have ham := downloadFile_amount st f (beh attempt)
        have hda := downloadFile_downloadedAmount st f (beh attempt)
        have hds := downloadFile_downloadedSize st f (beh attempt)
        rw [hz] at hds
        obtain ⟨ih1, ih2, ih3, ih4, ih5, ih6⟩ :=
          ih (attempt + 1) (by omega) (downloadFile st f (beh attempt)).1
        refine ⟨?_, ?_, ?_, ?_, ?_, ?_⟩
        · rw [ih1, hsz]
        · rw [ih2, ham]
        · rw [hda] at ih3
          exact ih3
        · rw [hds] at ih4
          simpa using ih4
        · intro h
          rw [hda] at ih5
          exact ih5 h
        · intro a ha
          simp only [List.mem_append, List.mem_cons] at ha
          rcases ha with ha | ha | ha
          · exact downloadFile_progress_fields st f (beh attempt) S (Hsum attempt) a ha
          · intro ta ts da ds sp et ty heq
            rw [heq] at ha
            simp at ha
          · intro ta ts da ds sp et ty heq
            obtain ⟨hta, hts, hdam, hdsm⟩ := ih6 a ha ta ts da ds sp et ty heq
            rw [hsz] at hts
            rw [ham] at hta
            rw [hda] at hdam
            rw [hds] at hdsm
            simp at hdsm
            exact ⟨hta, hts, hdam, hdsm⟩
      · rw [downloadFileWithRetry_exhaust st f beh attempt msg hr h5]
        have hz : retainedBytes (beh attempt) = 0 :=
          retainedBytes_eq_zero _ (by rw [← downloadFile_rejects st f (beh attempt), hr]; rfl)
            (Hchmod attempt)
        refine ⟨downloadFile_size .., downloadFile_amount .., ?_, ?_, ?_, ?_⟩
        · rw [downloadFile_downloadedAmount]
          omega
        · rw [downloadFile_downloadedSize, hz]
          simp
        · intro h
          simp at h
        · intro a ha
          simp only [List.mem_append, List.mem_singleton] at ha
          rcases ha with ha | ha
          · exact downloadFile_progress_fields st f (beh attempt) S (Hsum attempt) a ha
          · intro ta ts da ds sp et ty heq
            rw [heq] at ha
            simp at ha

theorem downloadFileWithRetry_inv (st : DState) (f : File) (beh : Nat → AttemptResult)
    (S : Nat) (Hsum : ∀ n, attemptChunkSum (beh n) ≤ S)
    (Hchmod : ∀ n, isChmodError (beh n) = false) :
    (downloadFileWithRetry st f beh 0).1.size = st.size ∧
    (downloadFileWithRetry st f beh 0).1.amount = st.amount ∧
    (downloadFileWithRetry st f beh 0).1.downloadedAmount ≤ st.downloadedAmount + 1 ∧
    (downloadFileWithRetry st f beh 0).1.downloadedSize ≤ st.downloadedSize + (S : Int) ∧
    ((downloadFileWithRetry st f beh 0).2.2 = none →
      (downloadFileWithRetry st f beh 0).1.downloadedAmount = st.downloadedAmount + 1) ∧
    (∀ a ∈ (downloadFileWithRetry st f beh 0).2.1, ∀ ta ts da ds sp et ty,
      a = Action.emit (Event.progress ta ts da ds sp et ty) →
      ta = st.amount ∧ ts = st.size ∧ da = st.downloadedAmount ∧
        ds ≤ st.downloadedSize + (S : Int)) :=
  downloadFileWithRetry_inv_aux f beh S Hsum Hchmod 5 0 (by omega) st

/-! ### Lemmas for the worker-pool drain -/

/-- Unconditional shape of the scheduler trace: no `download_end` event is
emitted while draining the queue, and every network request is for a file
of the queue. -/
theorem runQueue_actions (beh : File → Nat → AttemptResult) :
    ∀ (queue : List File) (st : DState), ∀ a ∈ (runQueue st beh queue).2.1,
      isEndedAction a = false ∧ ∀ g, a = Action.fetchStart g → g ∈ queue := by
  intro queue
  induction queue with
  | nil =>
    intro st a ha
    simp [runQueue] at ha
  | cons f rest ih =>
    intro st a ha
    have hmem : a ∈ (downloadFileWithRetry st f (beh f) 0).2.1 ∨
        ((downloadFileWithRetry st f (beh f) 0).2.2 = none ∧
          a ∈ (runQueue (downloadFileWithRetry st f (beh f) 0).1 beh rest).2.1) := by
      simp only [runQueue] at ha
      rcases hr : (downloadFileWithRetry st f (beh f) 0).2.2 with _ | e
      · rw [hr] at ha
        simp only [List.mem_append] at ha
        rcases ha with ha | ha
        · exact Or.inl ha
        · exact Or.inr ⟨rfl, ha⟩
      · rw [hr] at ha
        exact Or.inl ha
    rcases hmem with ha | ⟨_, ha⟩
    · rcases downloadFileWithRetry_actions st f (beh f) a ha with h | ⟨ms, h⟩ | ⟨m, h⟩ | h
      · subst h
        exact ⟨rfl, fun g hg => by cases hg; exact List.mem_cons_self f rest⟩
      · subst h
        exact ⟨rfl, fun g hg => by cases hg⟩
      · subst h
        exact ⟨rfl, fun g hg => by cases hg⟩
      · rcases a with e | g | ms
        · cases e with
          | progress ta ts da ds sp et ty => exact ⟨rfl, fun g hg => by cases hg⟩
          | fileError n t m => exact ⟨rfl, fun g hg => by cases hg⟩
          | ended da ds => simp [isProgressAction] at h
        · simp [isProgressAction] at h
        · simp [isProgressAction] at h
    · obtain ⟨h1, h2⟩ := ih _ a ha
      exact ⟨h1, fun g hg => List.mem_cons_of_mem f (h2 g hg)⟩

/-- Conditional counter invariant of the drain: if the byte counter plus
the declared sizes still to be fetched fit in the batch total and the file
counter plus the files still queued fit in the batch count, then every
progress event of the drain satisfies `downloaded ≤ total` on both
counters. -/
theorem runQueue_inv (beh : File → Nat → AttemptResult)
    (Hsum : ∀ f n, attemptChunkSum (beh f n) ≤ f.size.getD 0)
    (Hchmod : ∀ f n, isChmodError (beh f n) = false) :
    ∀ (queue : List File) (st : DState),
      st.downloadedSize + (((queue.map (fun f => f.size.getD 0)).sum : Nat) : Int) ≤
        (st.size : Int) →
      st.downloadedAmount + queue.length ≤ st.amount →
      ∀ a ∈ (runQueue st beh queue).2.1,
        progressBounded a = true ∧ progressAmountBounded a = true := by
  intro queue
  induction queue with
  | nil =>
    intro st _ _ a ha
    simp [runQueue] at ha
  | cons f rest ih =>
    intro st hsize hamount a ha
    obtain ⟨inv1, inv2, inv3, inv4, inv5, inv6⟩ :=
      downloadFileWithRetry_inv st f (beh f) (f.size.getD 0) (Hsum f) (Hchmod f)
    have hmem : a ∈ (downloadFileWithRetry st f (beh f) 0).2.1 ∨
        ((downloadFileWithRetry st f (beh f) 0).2.2 = none ∧
          a ∈ (runQueue (downloadFileWithRetry st f (beh f) 0).1 beh rest).2.1) := by
      simp only [runQueue] at ha
      rcases hr : (downloadFileWithRetry st f (beh f) 0).2.2 with _ | e
      · rw [hr] at ha
        simp only [List.mem_append] at ha
        rcases ha with ha | ha
        · exact Or.inl ha
        · exact Or.inr ⟨rfl, ha⟩
      · rw [hr] at ha
        exact Or.inl ha
    have hrest0 : (0 : Int) ≤ (((rest.map (fun f => f.size.getD 0)).sum : Nat) : Int) :=
      Int.natCast_nonneg _
    rcases hmem with ha | ⟨hnone, ha⟩
    · rcases a with e | g | ms
      · cases e with
        | progress ta ts da ds sp et ty =>
          obtain ⟨hta, hts, hda, hds⟩ :=
            inv6 (Action.emit (Event.progress ta ts da ds sp et ty)) ha ta ts da ds sp et ty rfl
          subst hta hts hda
          simp only [List.map_cons, List.sum_cons, Nat.cast_add, List.length_cons] at hsize hamount
          constructor
          · simp only [progressBounded, decide_eq_true_eq]
            omega
          · simp only [progressAmountBounded, decide_eq_true_eq]
            omega
        | fileError n t m => exact ⟨rfl, rfl⟩
        | ended da ds => exact ⟨rfl, rfl⟩
      · exact ⟨rfl, rfl⟩
      · exact ⟨rfl, rfl⟩
    · have hda1 := inv5 hnone
      refine ih (downloadFileWithRetry st f (beh f) 0).1 ?_ ?_ a ha
      · rw [inv1]
        simp only [List.map_cons, List.sum_cons, Nat.cast_add] at hsize
        omega
      · rw [inv2, hda1]
        simp only [List.length_cons] at hamount
        omega

/-! ### Unconditional counter facts (no assumption on attempt outcomes) -/

theorem downloadFile_progress_amount (st : DState) (f : File) (r : AttemptResult) :
    ∀ a ∈ (downloadFile st f r).2.1, ∀ ta ts da ds sp et ty,
      a = Action.emit (Event.progress ta ts da ds sp et ty) →
      ta = st.amount ∧ da = st.downloadedAmount := by
  intro a ha ta ts da ds sp et ty heq
  rcases downloadFile_actions st f r a ha with h | ⟨ds', sp', et', h, _⟩
  · rw [heq] at h
    simp at h
  · rw [heq] at h
    simp only [Action.emit.injEq, Event.progress.injEq] at h
    exact ⟨h.1, h.2.2.1⟩

/-- Unconditional counter facts of one retried transfer, whatever the
attempt outcomes: the batch totals are preserved, a successful transfer
increments the file counter by exactly one, and every progress event
emitted during the transfer carries the batch file total and the file
counter current at the start of the transfer. -/
theorem downloadFileWithRetry_amount_aux :
    ∀ (fuel attempt : Nat), 5 - attempt ≤ fuel →
    ∀ (st : DState) (f : File) (beh : Nat → AttemptResult),
      (downloadFileWithRetry st f beh attempt).1.size = st.size ∧
      (downloadFileWithRetry st f beh attempt).1.amount = st.amount ∧
      ((downloadFileWithRetry st f beh attempt).2.2 = none →
        (downloadFileWithRetry st f beh attempt).1.downloadedAmount =
          st.downloadedAmount + 1) ∧
      (∀ a ∈ (downloadFileWithRetry st f beh attempt).2.1, ∀ ta ts da ds sp et ty,
        a = Action.emit (Event.progress ta ts da ds sp et ty) →
        ta = st.amount ∧ da = st.downloadedAmount) := by
  intro fuel
  induction fuel with
  | zero =>
    intro attempt hfuel st f beh
    have h5 : ¬ attempt < 5 := by omega
    rcases hr : (downloadFile st f (beh attempt)).2.2 with _ | msg
    · rw [downloadFileWithRetry_success st f beh attempt hr]
      refine ⟨downloadFile_size .., downloadFile_amount .., ?_, ?_⟩
      · intro _
        simp [downloadFile_downloadedAmount]
      · intro a ha
        exact downloadFile_progress_amount st f (beh attempt) a ha
    · rw [downloadFileWithRetry_exhaust st f beh attempt msg hr h5]
      refine ⟨downloadFile_size .., downloadFile_amount .., ?_, ?_⟩
      · intro h
        simp at h
      · intro a ha
        simp only [List.mem_append, List.mem_singleton] at ha
        rcases ha with ha | ha
        · exact downloadFile_progress_amount st f (beh attempt) a ha
        · intro ta ts da ds sp et ty heq
          rw [heq] at ha
          simp at ha
  | succ k ih =>
    intro attempt hfuel st f beh
    rcases hr : (downloadFile st f (beh attempt)).2.2 with _ | msg
    · rw [downloadFileWithRetry_success st f beh attempt hr]
      refine ⟨downloadFile_size .., downloadFile_amount .., ?_, ?_⟩
      · intro _
        simp [downloadFile_downloadedAmount]
      · intro a ha
        exact downloadFile_progress_amount st f (beh attempt) a ha
    · by_cases h5 : attempt < 5
      · rw [downloadFileWithRetry_retry st f beh attempt msg hr h5]
        have hsz := downloadFile_size st f (beh attempt)
        have ham := downloadFile_amount st f (beh attempt)
        have hda := downloadFile_downloadedAmount st f (beh attempt)
        obtain ⟨ih1, ih2, ih3, ih4⟩ :=
          ih (attempt + 1) (by omega) (downloadFile st f (beh attempt)).1 f beh
        refine ⟨?_, ?_, ?_, ?_⟩
        · rw [ih1, hsz]
        · rw [ih2, ham]
        · intro h
          rw [ih3 h, hda]
        · intro a ha
          simp only [List.mem_append, List.mem_cons] at ha
          rcases ha with ha | ha | ha
          · exact downloadFile_progress_amount st f (beh attempt) a ha
          · intro ta ts da ds sp et ty heq
            rw [heq] at ha
            simp at ha
          · intro ta ts da ds sp et ty heq
            obtain ⟨hta, hdam⟩ := ih4 a ha ta ts da ds sp et ty heq
            rw [ham] at hta
            rw [hda] at hdam
            exact ⟨hta, hdam⟩
      · rw [downloadFileWithRetry_exhaust st f beh attempt msg hr h5]
        refine ⟨downloadFile_size .., downloadFile_amount .., ?_, ?_⟩
        · intro h
          simp at h
        · intro a ha
          simp only [List.mem_append, List.mem_singleton] at ha
          rcases ha with ha | ha
          · exact downloadFile_progress_amount st f (beh attempt) a ha
          · intro ta ts da ds sp et ty heq
            rw [heq] at ha
            simp at ha

theorem downloadFileWithRetry_amount (st : DState) (f : File) (beh : Nat → AttemptResult) :
    (downloadFileWithRetry st f beh 0).1.size = st.size ∧
    (downloadFileWithRetry st f beh 0).1.amount = st.amount ∧
    ((downloadFileWithRetry st f beh 0).2.2 = none →
      (downloadFileWithRetry st f beh 0).1.downloadedAmount = st.downloadedAmount + 1) ∧
    (∀ a ∈ (downloadFileWithRetry st f beh 0).2.1, ∀ ta ts da ds sp et ty,
      a = Action.emit (Event.progress ta ts da ds sp et ty) →
      ta = st.amount ∧ da = st.downloadedAmount) :=
  downloadFileWithRetry_amount_aux 5 0 (by omega) st f beh

/-- Unconditional file-counter invariant of the drain: if the file counter
plus the files still queued fit in the batch count, every progress event
of the drain satisfies `downloaded.amount ≤ total.amount`, whatever the
attempt outcomes. -/
theorem runQueue_amount_inv (beh : File → Nat → AttemptResult) :
    ∀ (queue : List File) (st : DState),
      st.downloadedAmount + queue.length ≤ st.amount →
      ∀ a ∈ (runQueue st beh queue).2.1, progressAmountBounded a = true := by
  intro queue
  induction queue with
  | nil =>
    intro st _ a ha
    simp [runQueue] at ha
  | cons f rest ih =>
    intro st hamount a ha
    obtain ⟨inv1, inv2, inv3, inv4⟩ := downloadFileWithRetry_amount st f (beh f)
    have hmem : a ∈ (downloadFileWithRetry st f (beh f) 0).2.1 ∨
        ((downloadFileWithRetry st f (beh f) 0).2.2 = none ∧
          a ∈ (runQueue (downloadFileWithRetry st f (beh f) 0).1 beh rest).2.1) := by
      simp only [runQueue] at ha
      rcases hr : (downloadFileWithRetry st f (beh f) 0).2.2 with _ | e
      · rw [hr] at ha
        simp only [List.mem_append] at ha
        rcases ha with ha | ha
        · exact Or.inl ha
        · exact Or.inr ⟨rfl, ha⟩
      · rw [hr] at ha
        exact Or.inl ha
    rcases hmem with ha | ⟨hnone, ha⟩
    · rcases a with e | g | ms
      · cases e with
        | progress ta ts da ds sp et ty =>
          obtain ⟨hta, hda⟩ :=
            inv4 (Action.emit (Event.progress ta ts da ds sp et ty)) ha ta ts da ds sp et
              ty rfl
          subst hta hda
          simp only [List.length_cons] at hamount
          simp only [progressAmountBounded, decide_eq_true_eq]
          omega
        | fileError n t m => rfl
        | ended da ds => rfl
      · rfl
      · rfl
    · refine ih (downloadFileWithRetry st f (beh f) 0).1 ?_ a ha
      rw [inv2, inv3 hnone]
      simp only [List.length_cons] at hamount
      omega

/-! ### Window lemmas for the throughput history -/

theorem pruneHistory_subset (now : Int) (l : List Sample) :
    ∀ s ∈ pruneHistory now l, s ∈ l := by
  induction l with
  | nil => intro s hs; simp [pruneHistory] at hs
  | cons a rest ih =>
    intro s hs
    simp only [pruneHistory] at hs
    by_cases hc : 6000 < now - a.time
    · rw [if_pos hc] at hs
      exact List.mem_cons_of_mem a (ih s hs)
    · rw [if_neg hc] at hs
      exact hs

/-- On a time-sorted history the front-pruning loop leaves only samples at
most 6000 ms older than `now`. -/
theorem pruneHistory_window (now : Int) (l : List Sample)
    (hsorted : List.Pairwise (fun a b => a.time ≤ b.time) l) :
    ∀ s ∈ pruneHistory now l, now - s.time ≤ 6000 := by
  induction l with
  | nil => intro s hs; simp [pruneHistory] at hs
  | cons a rest ih =>
    intro s hs
    simp only [pruneHistory] at hs
    by_cases hc : 6000 < now - a.time
    · rw [if_pos hc] at hs
      exact ih hsorted.tail s hs
    · rw [if_neg hc] at hs
      rcases List.mem_cons.mp hs with rfl | hs
      · omega
      · have := (List.pairwise_cons.mp hsorted).1 s hs
        omega

/-! ### Network requests only for queued files -/

theorem download_fetch_mem (prev : DState) (fs : FsState) (dest : String)
    (files : List File) (skipCheck : Bool) (beh : File → Nat → AttemptResult) (g : File) :
    Action.fetchStart g ∈ (download prev fs dest files skipCheck beh).2.1 →
    g ∈ downloadQueue fs dest files skipCheck := by
  intro hmem
  unfold download at hmem
  by_cases hzero :
      ((initBatchState prev (downloadQueue fs dest files skipCheck)).size == 0 ||
        (downloadQueue fs dest files skipCheck).isEmpty) = true
  · rw [if_pos hzero] at hmem
    simp at hmem
  · rw [if_neg hzero] at hmem
    rcases hr : (runQueue (initBatchState prev (downloadQueue fs dest files skipCheck)) beh
        (downloadQueue fs dest files skipCheck)).2.2 with _ | e
    · simp only [hr, List.mem_append, List.mem_singleton] at hmem
      rcases hmem with hmem | hmem
      · exact (runQueue_actions beh _ _ _ hmem).2 g rfl
      · cases hmem
    · simp only [hr] at hmem
      exact (runQueue_actions beh _ _ _ hmem).2 g rfl

theorem filter_eq_nil_of_forall {p : Action → Bool} {l : List Action}
    (h : ∀ a ∈ l, p a = false) : l.filter p = [] := by
  induction l with
  | nil => rfl
  | cons a rest ih =>
    rw [List.filter_cons, h a (List.mem_cons_self a rest)]
    exact ih (fun b hb => h b (List.mem_cons_of_mem a hb))

@[simp] theorem rat_floor_zero : Rat.floor (0 : ℚ) = 0 := rfl

/-! ### Concrete fixtures used by witnesses and counterexamples -/

/-- A filesystem where nothing exists and hashing always throws. -/
def fsNone : FsState :=
  { pathExists := fun _ => false, fileHash := fun _ => none }

/-- Arbitrary pre-call instance state with stale junk in every field, to
exhibit the reset performed by `download`. -/
def stalePrev : DState :=
  { size := 99, amount := 9, downloadedAmount := 4, downloadedSize := 11,
    error := true, speed := 3, eta := 2, history := [{ size := 1, time := -5 }] }

/-- A plain downloadable FILE entry whose every transfer attempt will fail. -/
def c1File : File :=
  { path := "libs", name := "file.jar", type := FileType.FILE,
    url := some "http://host/file.jar", size := some 7, sha1 := none, executable := false }

/-- Behaviour oracle: every attempt of every file gets a failing response. -/
def allFail : File → Nat → AttemptResult := fun _ _ => AttemptResult.fetchError "Not Found"

/-- A FOLDER entry (no URL) with a declared size. -/
def c2Folder : File :=
  { path := "assets", name := "objects", type := FileType.FOLDER,
    url := none, size := some 3, sha1 := none, executable := false }

/-- A FILE entry declaring 1 byte whose server actually sends 2 bytes. -/
def c3File : File :=
  { path := "p", name := "big.bin", type := FileType.FILE,
    url := some "http://host/big.bin", size := some 1, sha1 := none, executable := false }

/-- Behaviour oracle: one 2-byte chunk at t = 0, then a clean finish. -/
def overDeliver : File → Nat → AttemptResult :=
  fun _ _ => AttemptResult.streamOk [{ size := 2, time := 0 }]

/-- Fresh batch state for the 10/20/30-byte throughput example. -/
def chunkStart : DState :=
  { size := 60, amount := 1, downloadedAmount := 0, downloadedSize := 0,
    error := false, speed := 0, eta := 0, history := [] }

/-- A FILE entry with no `url` that is absent locally (so its
`needsDownload` flag is set). -/
def c10File : File :=
  { path := "p", name := "nourl.bin", type := FileType.FILE,
    url := none, size := some 5, sha1 := some "abc", executable := false }

/-! ## Claims -/

/-- Claim C10: for every input list, an entry whose `url` is absent is never
included in the download set returned by `getFilesToDownload`, whatever the
filesystem state — even when the entry is missing locally or its hash
mismatches, it is silently skipped. -/
theorem claim_C10_no_url_never_included (fs : FsState) (dest : String) (files : List File)
    (f : File) (hurl : f.url = none) : f ∉ getFilesToDownload fs dest files := by
  intro hmem
  have hflt := (List.mem_filter.mp hmem).2
  rw [hurl] at hflt
  simp [strTruthy] at hflt

theorem claim_C10_witness :
    c10File.url = none ∧ c10File ∉ getFilesToDownload fsNone "d" [c10File] :=
  ⟨rfl, claim_C10_no_url_never_included fsNone "d" [c10File] c10File rfl⟩

/-- Claim C2, counterexample: with the skip flag set, a FOLDER entry with no
URL is in the set handed to the worker pool and is actually fetched,
contradicting the claim that only FILE entries with a URL are queued. -/
theorem claim_C2_counterexample :
    c2Folder.type = FileType.FOLDER ∧ c2Folder.url = none ∧
    c2Folder ∈ downloadQueue fsNone "d" [c2Folder] true ∧
    Action.fetchStart c2Folder ∈
      (download stalePrev fsNone "d" [c2Folder] true allFail).2.1 := by
  refine ⟨rfl, rfl, ?_, ?_⟩
  · simp [downloadQueue]
  · simp [download, downloadQueue, initBatchState, runQueue, downloadFileWithRetry,
      downloadFile, c2Folder, allFail, stalePrev]

/-- Claim C2, amended: when the skip flag is true the *entire* input list —
FOLDER entries and URL-less entries included — is handed to the worker
pool unchanged; the filtering down to entries with a (truthy) URL that
need downloading happens only on the skip-flag-false path. -/
theorem claim_C2_skip_hands_over_everything (fs : FsState) (dest : String)
    (files : List File) :
    downloadQueue fs dest files true = files ∧
    ∀ f ∈ downloadQueue fs dest files false,
      entryNeedsDownload fs dest f = true ∧ strTruthy f.url = true := by
  refine ⟨rfl, ?_⟩
  intro f hf
  have hflt := (List.mem_filter.mp hf).2
  simpa using hflt

theorem claim_C2_witness :
    downloadQueue fsNone "d" [c2Folder] true = [c2Folder] ∧
    (entryNeedsDownload fsNone "d" c1File = true ∧ strTruthy c1File.url = true) :=
  ⟨(claim_C2_skip_hands_over_everything fsNone "d" [c2Folder]).1,
    (claim_C2_skip_hands_over_everything fsNone "d" [c1File]).2 c1File (by decide)⟩

/-- Claim C8: when one attempt fails mid-stream after delivering `chunks`,
exactly the bytes counted during this attempt are subtracted back (the
byte counter returns to its pre-attempt value, so a retried attempt starts
from zero), the error is surfaced, and nothing else of the batch state
changes: file counter and totals are untouched and the throughput samples
recorded during the failed attempt are kept. -/
theorem claim_C8_stream_error_frame (st : DState) (f : File) (chunks : List Sample)
    (msg : String) :
    (downloadFile st f (AttemptResult.streamError chunks msg)).1.downloadedSize =
      st.downloadedSize ∧
    (downloadFile st f (AttemptResult.streamError chunks msg)).1.downloadedAmount =
      st.downloadedAmount ∧
    (downloadFile st f (AttemptResult.streamError chunks msg)).1.size = st.size ∧
    (downloadFile st f (AttemptResult.streamError chunks msg)).1.amount = st.amount ∧
    (downloadFile st f (AttemptResult.streamError chunks msg)).1.history =
      (processChunks st f.type chunks).1.history ∧
    (downloadFile st f (AttemptResult.streamError chunks msg)).2.2 = some msg := by
  refine ⟨?_, ?_, ?_, ?_, rfl, rfl⟩
  · simp [downloadFile, processChunks_downloadedSize]
  · simp [downloadFile, processChunks_downloadedAmount]
  · simp [downloadFile, processChunks_size]
  · simp [downloadFile, processChunks_amount]

/-- Claim C9: after a failed attempt numbered `n` (from 0) with a retry
remaining, the wrapper waits `1000 * (n + 1)` ms before the next attempt —
attempt 0 → 1000 ms, attempt 1 → 2000 ms, linear; for a file whose every
attempt fails the sleeps are exactly 1000, 2000, 3000, 4000, 5000 ms. -/
theorem claim_C9_linear_retry_delay :
    (∀ (st : DState) (f : File) (beh : Nat → AttemptResult) (attempt : Nat) (msg : String),
      attempt < 5 → (downloadFile st f (beh attempt)).2.2 = some msg →
      (downloadFileWithRetry st f beh attempt).2.1 =
        (downloadFile st f (beh attempt)).2.1 ++ Action.wait (1000 * (attempt + 1)) ::
          (downloadFileWithRetry (downloadFile st f (beh attempt)).1 f beh
            (attempt + 1)).2.1) ∧
    (∀ (st : DState) (f : File) (statusText : String),
      waitsOf (downloadFileWithRetry st f
        (fun _ => AttemptResult.fetchError statusText) 0).2.1 =
        [1000, 2000, 3000, 4000, 5000]) := by
  constructor
  · intro st f beh attempt msg h5 hr
    rw [downloadFileWithRetry_retry st f beh attempt msg hr h5]
  · intro st f statusText
    simp [downloadFileWithRetry, downloadFile, waitsOf]

theorem claim_C9_witness :
    (0 : Nat) < 5 ∧
    (downloadFileWithRetry stalePrev c1File (allFail c1File) 0).2.1 =
      (downloadFile stalePrev c1File (allFail c1File 0)).2.1 ++ Action.wait 1000 ::
        (downloadFileWithRetry (downloadFile stalePrev c1File (allFail c1File 0)).1 c1File
          (allFail c1File) 1).2.1 :=
  ⟨by decide,
    claim_C9_linear_retry_delay.1 stalePrev c1File (allFail c1File) 0
      "Error while fetching file.jar: Not Found" (by decide) rfl⟩

/-- Claim C5: when the resolved download set is empty or its summed size is
zero, `download` immediately emits the end event with zero downloaded
counters and returns successfully, and no network request is issued. -/
theorem claim_C5_zero_work_short_circuit (prev : DState) (fs : FsState) (dest : String)
    (files : List File) (skipCheck : Bool) (beh : File → Nat → AttemptResult)
    (h : downloadQueue fs dest files skipCheck = [] ∨
      ((downloadQueue fs dest files skipCheck).map (fun f => f.size.getD 0)).sum = 0) :
    (download prev fs dest files skipCheck beh).2.1 = [Action.emit (Event.ended 0 0)] ∧
    (download prev fs dest files skipCheck beh).2.1.filter isFetchStartAction = [] ∧
    (download prev fs dest files skipCheck beh).2.2 = none := by
  have hcond : ((initBatchState prev (downloadQueue fs dest files skipCheck)).size == 0 ||
      (downloadQueue fs dest files skipCheck).isEmpty) = true := by
    rcases h with h | h
    · simp [h]
    · simp [initBatchState, h]
  unfold download
  rw [if_pos hcond]
  exact ⟨rfl, rfl, rfl⟩

theorem claim_C5_witness :
    (downloadQueue fsNone "d" [] false = [] ∨
      ((downloadQueue fsNone "d" [] false).map (fun f => f.size.getD 0)).sum = 0) ∧
    (download stalePrev fsNone "d" [] false allFail).2.1 =
      [Action.emit (Event.ended 0 0)] ∧
    (download stalePrev fsNone "d" [] false allFail).2.1.filter isFetchStartAction = [] ∧
    (download stalePrev fsNone "d" [] false allFail).2.2 = none :=
  ⟨Or.inl rfl, claim_C5_zero_work_short_circuit stalePrev fsNone "d" [] false allFail
    (Or.inl rfl)⟩

/-- Claim C1, evaluation at the failing input: for a file whose every attempt fails, the code
issues **6** network requests (attempt indices 0–5), then emits exactly one
`download_error` event with the file's name, kind and failure message, and
the call rejects with `EMLLibError(DOWNLOAD_ERROR, "… after 5 attempts")`
— the message (and the claim) say 5 attempts, the code performs 6; no end
event is emitted. -/
theorem claim_C1_six_attempts :
    ((download stalePrev fsNone "d" [c1File] true allFail).2.1.filter
        isFetchStartAction).length = 6 ∧
    (download stalePrev fsNone "d" [c1File] true allFail).2.1.filter isFileErrorAction =
      [Action.emit (Event.fileError "file.jar" FileType.FILE
        "Error while fetching file.jar: Not Found")] ∧
    (download stalePrev fsNone "d" [c1File] true allFail).2.2 =
      some { errType := ErrorType.DOWNLOAD_ERROR,
             message := "Failed to download file.jar after 5 attempts" } ∧
    (download stalePrev fsNone "d" [c1File] true allFail).2.1.filter isEndedAction = [] := by
  refine ⟨?_, ?_, ?_, ?_⟩ <;>
    simp [download, downloadQueue, initBatchState, runQueue, downloadFileWithRetry,
      downloadFile, c1File, allFail, stalePrev, isFetchStartAction, isFileErrorAction,
      isEndedAction]

/-- Claim C4: the `download_end` event is emitted exactly once — carrying the
final downloaded totals — iff the `download` call returns successfully
(zero-work short-circuit included); a fatally failing call emits no end
event. -/
theorem claim_C4_end_iff_success (prev : DState) (fs : FsState) (dest : String)
    (files : List File) (skipCheck : Bool) (beh : File → Nat → AttemptResult) :
    (download prev fs dest files skipCheck beh).2.1.filter isEndedAction =
      (if (download prev fs dest files skipCheck beh).2.2.isNone then
        [Action.emit (Event.ended
          (download prev fs dest files skipCheck beh).1.downloadedAmount
          (download prev fs dest files skipCheck beh).1.downloadedSize)]
      else []) := by
  unfold download
  by_cases hzero : ((initBatchState prev (downloadQueue fs dest files skipCheck)).size == 0 ||
      (downloadQueue fs dest files skipCheck).isEmpty) = true
  · rw [if_pos hzero]
    simp [isEndedAction]
  · rw [if_neg hzero]
    rcases hr : (runQueue (initBatchState prev (downloadQueue fs dest files skipCheck)) beh
        (downloadQueue fs dest files skipCheck)).2.2 with _ | e
    · simp only [hr, List.filter_append]
      rw [filter_eq_nil_of_forall (fun a ha => (runQueue_actions beh _ _ a ha).1)]
      simp [isEndedAction]
    · simp only [hr]
      rw [filter_eq_nil_of_forall (fun a ha => (runQueue_actions beh _ _ a ha).1)]
      simp

/-- Claim C3, counterexample: a batch with one FILE entry declaring 1 byte
whose server sends a 2-byte chunk emits a progress event whose
`downloaded.size` (2) exceeds `total.size` (1) — the claimed invariant is
violated by the emitted event. -/
theorem claim_C3_counterexample :
    Action.emit (Event.progress 1 1 0 2 0 0 FileType.FILE) ∈
      (download stalePrev fsNone "d" [c3File] true overDeliver).2.1 ∧
    progressBounded (Action.emit (Event.progress 1 1 0 2 0 0 FileType.FILE)) = false := by
  constructor
  · simp [download, downloadQueue, initBatchState, runQueue, downloadFileWithRetry,
      downloadFile, processChunks, onChunk, pruneHistory, c3File, overDeliver, stalePrev]
  · decide

/-- Claim C3, amended: both downloaded counters are reset to zero at the
start of every `download` call, and `downloaded.amount ≤ total.amount`
holds at every emitted progress event; `downloaded.size ≤ total.size`
additionally holds provided no attempt delivers more bytes than its file's
declared size and no attempt fails post-stream in `chmodJavaFiles` (a
retry after a kept-bytes failure re-counts the file's bytes). -/
theorem claim_C3_amended (prev : DState) (fs : FsState) (dest : String) (files : List File)
    (skipCheck : Bool) (beh : File → Nat → AttemptResult) :
    (∀ a ∈ (download prev fs dest files skipCheck beh).2.1,
      progressAmountBounded a = true) ∧
    (initBatchState prev (downloadQueue fs dest files skipCheck)).downloadedAmount = 0 ∧
    (initBatchState prev (downloadQueue fs dest files skipCheck)).downloadedSize = 0 ∧
    ((∀ f n, attemptChunkSum (beh f n) ≤ f.size.getD 0) →
      (∀ f n, isChmodError (beh f n) = false) →
      ∀ a ∈ (download prev fs dest files skipCheck beh).2.1,
        progressBounded a = true) := by
  have hpre2 : (initBatchState prev (downloadQueue fs dest files skipCheck)).downloadedAmount +
      (downloadQueue fs dest files skipCheck).length ≤
      (initBatchState prev (downloadQueue fs dest files skipCheck)).amount := by
    simp [initBatchState]
  refine ⟨?_, rfl, rfl, ?_⟩
  · intro a ha
    unfold download at ha
    by_cases hzero : ((initBatchState prev (downloadQueue fs dest files skipCheck)).size == 0 ||
        (downloadQueue fs dest files skipCheck).isEmpty) = true
    · rw [if_pos hzero] at ha
      simp only [List.mem_singleton] at ha
      subst ha
      rfl
    · rw [if_neg hzero] at ha
      rcases hr : (runQueue (initBatchState prev (downloadQueue fs dest files skipCheck)) beh
          (downloadQueue fs dest files skipCheck)).2.2 with _ | e
      · simp only [hr, List.mem_append, List.mem_singleton] at ha
        rcases ha with ha | ha
        · exact runQueue_amount_inv beh _ _ hpre2 a ha
        · subst ha
          rfl
      · simp only [hr] at ha
        exact runQueue_amount_inv beh _ _ hpre2 a ha
  · intro Hsum Hchmod a ha
    have hpre1 : (initBatchState prev
        (downloadQueue fs dest files skipCheck)).downloadedSize +
        ((((downloadQueue fs dest files skipCheck).map (fun f => f.size.getD 0)).sum : Nat) :
          Int) ≤
        ((initBatchState prev (downloadQueue fs dest files skipCheck)).size : Int) := by
      simp [initBatchState]
    unfold download at ha
    by_cases hzero : ((initBatchState prev (downloadQueue fs dest files skipCheck)).size == 0 ||
        (downloadQueue fs dest files skipCheck).isEmpty) = true
    · rw [if_pos hzero] at ha
      simp only [List.mem_singleton] at ha
      subst ha
      rfl
    · rw [if_neg hzero] at ha
      rcases hr : (runQueue (initBatchState prev (downloadQueue fs dest files skipCheck)) beh
          (downloadQueue fs dest files skipCheck)).2.2 with _ | e
      · simp only [hr, List.mem_append, List.mem_singleton] at ha
        rcases ha with ha | ha
        · exact (runQueue_inv beh Hsum Hchmod _ _ hpre1 hpre2 a ha).1
        · subst ha
          rfl
      · simp only [hr] at ha
        exact (runQueue_inv beh Hsum Hchmod _ _ hpre1 hpre2 a ha).1

/-- A FILE entry declaring 2 bytes. -/
def okFile : File :=
  { path := "p", name := "ok.bin", type := FileType.FILE,
    url := some "http://host/ok.bin", size := some 2, sha1 := none, executable := false }

/-- Behaviour oracle: every attempt delivers exactly the declared size as
one chunk at t = 0 and finishes cleanly. -/
def exactDeliver : File → Nat → AttemptResult :=
  fun f _ => AttemptResult.streamOk [{ size := f.size.getD 0, time := 0 }]

theorem claim_C3_witness :
    progressAmountBounded (Action.emit (Event.progress 1 2 0 2 0 0 FileType.FILE)) = true ∧
    progressBounded (Action.emit (Event.progress 1 2 0 2 0 0 FileType.FILE)) = true :=
  ⟨(claim_C3_amended stalePrev fsNone "d" [okFile] true exactDeliver).1
    (Action.emit (Event.progress 1 2 0 2 0 0 FileType.FILE))
    (by simp [download, downloadQueue, initBatchState, runQueue, downloadFileWithRetry,
      downloadFile, processChunks, onChunk, pruneHistory, okFile, exactDeliver, stalePrev]),
   (claim_C3_amended stalePrev fsNone "d" [okFile] true exactDeliver).2.2.2
    (fun f _ => by simp [exactDeliver, attemptChunkSum])
    (fun _ _ => rfl)
    (Action.emit (Event.progress 1 2 0 2 0 0 FileType.FILE))
    (by simp [download, downloadQueue, initBatchState, runQueue, downloadFileWithRetry,
      downloadFile, processChunks, onChunk, pruneHistory, okFile, exactDeliver, stalePrev])⟩

/-- An entry not needing download is neither in the resolved set nor ever
fetched on the `skipCheck = false` path. -/
theorem excluded_entry_not_fetched (fs : FsState) (dest : String) (files : List File)
    (f : File) (prev : DState) (beh : File → Nat → AttemptResult)
    (h : entryNeedsDownload fs dest f = false) :
    f ∉ getFilesToDownload fs dest files ∧
    Action.fetchStart f ∉ (download prev fs dest files false beh).2.1 := by
  have hmem : f ∉ getFilesToDownload fs dest files := by
    intro hm
    have hflt := (List.mem_filter.mp hm).2
    rw [h] at hflt
    simp at hflt
  refine ⟨hmem, fun hf => ?_⟩
  have hq := download_fetch_mem prev fs dest files false beh f hf
  simp only [downloadQueue, if_neg] at hq
  exact hmem (by simpa using hq)

/-- FILE entry with a content hash matching what the local filesystem
reports. -/
def c6File : File :=
  { path := "p", name := "lib.jar", type := FileType.FILE,
    url := some "http://host/lib.jar", size := some 4, sha1 := some "abc",
    executable := false }

/-- FILE entry with no content hash. -/
def c6NoHashFile : File :=
  { path := "p", name := "nohash.bin", type := FileType.FILE,
    url := some "http://host/nohash.bin", size := some 4, sha1 := none,
    executable := false }

/-- Filesystem where both fixture paths exist and `lib.jar` hashes to
`"abc"`. -/
def fsMatch : FsState :=
  { pathExists := fun pth => pth == "d/p/lib.jar" || pth == "d/p/nohash.bin",
    fileHash := fun pth => if pth == "d/p/lib.jar" then some "abc" else none }

/-- Filesystem where `lib.jar` exists but hashes to `"zzz"`. -/
def fsMismatch : FsState :=
  { pathExists := fun pth => pth == "d/p/lib.jar",
    fileHash := fun pth => if pth == "d/p/lib.jar" then some "zzz" else none }

/-- Claim C6: for a FILE entry on the `skipExisting = false` path: a present
local file whose recomputed hash equals the (truthy) descriptor hash is
excluded from the download set and never fetched; a set-and-different hash,
or a missing local file, sets the needs-download flag; an unset hash plus
local existence alone excludes the entry. -/
theorem claim_C6_diff_resolver (fs : FsState) (dest : String) (files : List File) (f : File)
    (prev : DState) (beh : File → Nat → AttemptResult)
    (hFILE : f.type = FileType.FILE) :
    (∀ h, fs.pathExists (filePathOf dest f) = true → f.sha1 = some h →
      fs.fileHash (filePathOf dest f) = some h →
      entryNeedsDownload fs dest f = false ∧ f ∉ getFilesToDownload fs dest files ∧
      Action.fetchStart f ∉ (download prev fs dest files false beh).2.1) ∧
    (∀ h lh, fs.pathExists (filePathOf dest f) = true → f.sha1 = some h → h ≠ "" →
      fs.fileHash (filePathOf dest f) = some lh → h ≠ lh →
      entryNeedsDownload fs dest f = true) ∧
    (fs.pathExists (filePathOf dest f) = false → entryNeedsDownload fs dest f = true) ∧
    (f.sha1 = none → fs.pathExists (filePathOf dest f) = true →
      entryNeedsDownload fs dest f = false ∧ f ∉ getFilesToDownload fs dest files ∧
      Action.fetchStart f ∉ (download prev fs dest files false beh).2.1) := by
  refine ⟨?_, ?_, ?_, ?_⟩
  · intro h hex hsha hhash
    have hentry : entryNeedsDownload fs dest f = false := by
      simp [entryNeedsDownload, hFILE, hex, hsha, hhash]
    obtain ⟨h1, h2⟩ := excluded_entry_not_fetched fs dest files f prev beh hentry
    exact ⟨hentry, h1, h2⟩
  · intro h lh hex hsha hne hhash hdiff
    have hbeq : (h == "") = false := beq_eq_false_iff_ne.mpr hne
    have hbne : (h != lh) = true := bne_iff_ne.mpr hdiff
    simp [entryNeedsDownload, hFILE, hex, hsha, hhash, hbeq, hbne]
  · intro hex
    simp [entryNeedsDownload, hFILE, hex]
  · intro hsha hex
    have hentry : entryNeedsDownload fs dest f = false := by
      simp [entryNeedsDownload, hFILE, hex, hsha]
    obtain ⟨h1, h2⟩ := excluded_entry_not_fetched fs dest files f prev beh hentry
    exact ⟨hentry, h1, h2⟩

theorem claim_C6_witness :
    (entryNeedsDownload fsMatch "d" c6File = false ∧
      c6File ∉ getFilesToDownload fsMatch "d" [c6File] ∧
      Action.fetchStart c6File ∉
        (download stalePrev fsMatch "d" [c6File] false allFail).2.1) ∧
    entryNeedsDownload fsMismatch "d" c6File = true ∧
    entryNeedsDownload fsNone "d" c6File = true ∧
    (entryNeedsDownload fsMatch "d" c6NoHashFile = false ∧
      c6NoHashFile ∉ getFilesToDownload fsMatch "d" [c6NoHashFile] ∧
      Action.fetchStart c6NoHashFile ∉
        (download stalePrev fsMatch "d" [c6NoHashFile] false allFail).2.1) :=
  ⟨(claim_C6_diff_resolver fsMatch "d" [c6File] c6File stalePrev allFail rfl).1 "abc"
      (by decide) rfl (by decide),
    (claim_C6_diff_resolver fsMismatch "d" [c6File] c6File stalePrev allFail rfl).2.1 "abc"
      "zzz" (by decide) rfl (by decide) (by decide) (by decide),
    (claim_C6_diff_resolver fsNone "d" [c6File] c6File stalePrev allFail rfl).2.2.1 rfl,
    (claim_C6_diff_resolver fsMatch "d" [c6NoHashFile] c6NoHashFile stalePrev allFail
      rfl).2.2.2 rfl (by decide)⟩

/-- Claim C7: the chunk handler appends a sample and prunes everything more
than 6000 ms older than the newest sample (so, on a time-sorted history,
every retained sample is within the window); the stored speed is the sum
of retained sizes divided by the elapsed seconds from the oldest retained
sample to now (zero when elapsed is zero); the stored eta is
`(total − downloaded) / speed` when speed is positive and zero otherwise,
and the emitted event carries the eta floored to whole seconds.  On chunks
of 10, 20, 30 bytes at t = 0 s, 1 s, 2 s the speed after the third chunk
is 30 bytes/sec. -/
theorem claim_C7_throughput :
    (∀ (st : DState) (t : FileType) (c : Sample),
      List.Pairwise (fun a b => a.time ≤ b.time) (st.history ++ [c]) →
      (onChunk st t c).1.history = pruneHistory c.time (st.history ++ [c]) ∧
      (∀ s ∈ (onChunk st t c).1.history, c.time - s.time ≤ 6000) ∧
      ((((c.time - (((onChunk st t c).1.history).headD c).time : Int) : ℚ) / 1000) = 0 →
        (onChunk st t c).1.speed = 0) ∧
      ((((c.time - (((onChunk st t c).1.history).headD c).time : Int) : ℚ) / 1000) ≠ 0 →
        (onChunk st t c).1.speed =
          ((((onChunk st t c).1.history).map Sample.size).sum : ℚ) /
            (((c.time - (((onChunk st t c).1.history).headD c).time : Int) : ℚ) / 1000)) ∧
      ((onChunk st t c).1.speed = 0 → (onChunk st t c).1.eta = 0) ∧
      ((onChunk st t c).1.speed ≠ 0 → (onChunk st t c).1.eta =
        ((st.size : ℚ) - ((onChunk st t c).1.downloadedSize : ℚ)) /
          (onChunk st t c).1.speed) ∧
      (onChunk st t c).2 = Action.emit (Event.progress st.amount st.size st.downloadedAmount
        (onChunk st t c).1.downloadedSize (onChunk st t c).1.speed
        (Rat.floor (onChunk st t c).1.eta) t)) ∧
    (processChunks chunkStart FileType.FILE
      [{ size := 10, time := 0 }, { size := 20, time := 1000 },
       { size := 30, time := 2000 }]).1.speed = 30 := by
  constructor
  · intro st t c hsorted
    have hle : ∀ s ∈ st.history ++ [c], s.time ≤ c.time := by
      intro s hs
      rcases List.mem_append.mp hs with hs | hs
      · exact (List.pairwise_append.mp hsorted).2.2 s hs c (by simp)
      · simp only [List.mem_singleton] at hs
        subst hs
        exact le_refl _
    have hwin : ∀ s ∈ pruneHistory c.time (st.history ++ [c]), c.time - s.time ≤ 6000 :=
      pruneHistory_window c.time _ hsorted
    have hheadle : ((pruneHistory c.time (st.history ++ [c])).headD c).time ≤ c.time := by
      rcases hh : pruneHistory c.time (st.history ++ [c]) with _ | ⟨s0, rest⟩
      · simp
      · have hs0 : s0 ∈ pruneHistory c.time (st.history ++ [c]) := by
          rw [hh]
          exact List.mem_cons_self s0 rest
        have := hle s0 (pruneHistory_subset c.time _ s0 hs0)
        simpa using this
    have helnn : (0 : ℚ) ≤
        ((c.time - ((pruneHistory c.time (st.history ++ [c])).headD c).time : Int) : ℚ) /
          1000 := by
      apply div_nonneg
      · have hnn : (0 : Int) ≤
            c.time - ((pruneHistory c.time (st.history ++ [c])).headD c).time := by
          omega
        exact_mod_cast hnn
      · norm_num
    simp only [onChunk]
    refine ⟨trivial, hwin, ?_, ?_, ?_, ?_, trivial⟩
    · intro h0
      rw [h0]
      simp
    · intro hne
      rw [if_pos (lt_of_le_of_ne helnn (Ne.symm hne))]
    · intro hs0
      rw [hs0]
      simp
    · intro hsne
      have hnn : (0 : ℚ) ≤
          (if 0 < ((c.time -
              ((pruneHistory c.time (st.history ++ [c])).headD c).time : Int) : ℚ) / 1000 then
            (((pruneHistory c.time (st.history ++ [c])).map Sample.size).sum : ℚ) /
              (((c.time -
                ((pruneHistory c.time (st.history ++ [c])).headD c).time : Int) : ℚ) / 1000)
          else 0) := by
        by_cases hpos : 0 < ((c.time -
            ((pruneHistory c.time (st.history ++ [c])).headD c).time : Int) : ℚ) / 1000
        · rw [if_pos hpos]
          exact div_nonneg (Nat.cast_nonneg _) (le_of_lt hpos)
        · rw [if_neg hpos]
      rw [if_pos (lt_of_le_of_ne hnn (Ne.symm hsne))]
  · simp [processChunks, onChunk, chunkStart, pruneHistory]
    norm_num

/-- Fresh state and a single sample arriving at t = 500 ms, for the
throughput witness (elapsed is zero, so speed is zero). -/
def wState : DState :=
  { size := 100, amount := 1, downloadedAmount := 0, downloadedSize := 0,
    error := false, speed := 0, eta := 0, history := [] }

def wSample : Sample := { size := 7, time := 500 }

theorem claim_C7_witness :
    List.Pairwise (fun a b => a.time ≤ b.time) (wState.history ++ [wSample]) ∧
    (onChunk wState FileType.FILE wSample).1.speed = 0 :=
  ⟨by simp [wState],
    (claim_C7_throughput.1 wState FileType.FILE wSample (by simp [wState])).2.2.1
      (by norm_num [onChunk, pruneHistory, wState, wSample])⟩

end EML
